import Mathlib

/-!
Verification of the gzip codec (src/gzip_codec.py) against its
specification.  Byte strings are `List Nat` with values below 256.  The raw
DEFLATE engine, the CRC-32 primitive and the `gzip.GzipFile` header/trailer
handling are external collaborators of the module under verification; they
are modelled below, the engine abstractly through an interface contract and
the rest concretely, and every state machine of src/gzip_codec.py is
translated line by line on top of them.
-/

/-! ## Binary layout: little-endian 32-bit fields -/

/-- struct.pack with format I applied to one unsigned 32-bit value, as in
src/gzip_codec.py lines 80-81: four bytes in native order, modelled for the
little-endian platforms CPython runs this codec on (gzip.py itself writes
the same four bytes explicitly little-endian). -/
def pack_I (v : Nat) : List Nat :=
  [v % 256, v / 256 % 256, v / 65536 % 256, v / 16777216 % 256]

/-- gzip.read32: unpack a little-endian unsigned 32-bit integer from the
first four bytes of the list. -/
def read32 (l : List Nat) : Nat :=
  l.getD 0 0 + 256 * l.getD 1 0 + 65536 * l.getD 2 0 + 16777216 * l.getD 3 0

/-! ## CRC-32 accumulator (zlib.crc32) -/

/-- One step of the reflected CRC-32 bit loop with the gzip/zlib polynomial. -/
def crcRound (c : Nat) : Nat :=
  if c % 2 = 1 then (c / 2) ^^^ 0xedb88320 else c / 2

/-- Table-free byte update of the CRC-32 accumulator. -/
def crcByte (c b : Nat) : Nat := crcRound^[8] (c ^^^ b)

/-- CRC-32 of a byte list continued from a prior value, as computed by
zlib.crc32(data, prior): pre- and post-conditioning with 0xffffffff around a
left fold of the byte update. -/
def crc32 (prior : Nat) (data : List Nat) : Nat :=
  (data.foldl crcByte (prior ^^^ 0xffffffff)) ^^^ 0xffffffff

/-! ## The raw DEFLATE engine -/

/-- Modelled from the spec: the external raw-deflate engine (zlib used with
raw, headerless framing), exposing compress/flush on the compressing side
and decompress/flush on the decompressing side.  Compression state `CSt` is
threaded explicitly; `cinit` is the state of
zlib.compressobj(9, DEFLATED, -MAX_WBITS, DEF_MEM_LEVEL, 0), the exact
configuration used both by gzip.GzipFile and by IncrementalEncoder.reset.
`dinit` is the state of zlib.decompressobj(-MAX_WBITS). -/
structure Deflate where
  CSt : Type
  DSt : Type
  cinit : CSt
  compress : CSt → List Nat → CSt × List Nat
  flush : CSt → List Nat
  dinit : DSt
  decompress : DSt → List Nat → DSt × List Nat
  dflush : DSt → List Nat

/-- Modelled from the spec: the contract of the external raw-deflate engine.
Compression is chunk-size-insensitive and produces nothing on empty input;
decompressing a complete compressed stream recovers the data exactly, any
bytes following the end of the stream produce no output (zlib stashes them
as unused_data), and flushing the decompressor after the end of the stream
returns nothing. -/
structure LawfulDeflate (E : Deflate) : Prop where
  compress_nil : ∀ s, E.compress s [] = (s, [])
  compress_append : ∀ s a b,
    E.compress s (a ++ b) =
      ((E.compress (E.compress s a).1 b).1,
       (E.compress s a).2 ++ (E.compress (E.compress s a).1 b).2)
  decompress_spec : ∀ d extra,
    (E.decompress E.dinit
      ((E.compress E.cinit d).2 ++ E.flush (E.compress E.cinit d).1 ++ extra)).2 = d
  dflush_spec : ∀ d extra,
    E.dflush (E.decompress E.dinit
      ((E.compress E.cinit d).2 ++ E.flush (E.compress E.cinit d).1 ++ extra)).1 = []

/-! ## Header layout -/

/-- Modelled from the spec: the 10-byte header gzip.GzipFile writes when a
wb-mode instance is constructed on a name-less file object, as both
gzip_encode and IncrementalEncoder.encode do: magic 1f 8b, method 8
(DEFLATE), zero flags (hence no optional fields), little-endian modification
time taken from the clock at construction, advisory extra-flags byte 2
(maximum compression) and OS byte 0xff. -/
def gzipHeader (mtime : Nat) : List Nat :=
  [0x1f, 0x8b, 8, 0] ++ pack_I mtime ++ [2, 0xff]

/-! ## Incremental encoder (src/gzip_codec.py lines 63-94) -/

/-- State of an IncrementalEncoder: whether self.gzipobj is set (the
GzipFile is used only to emit the header once, so only its truthiness
matters), the accumulated CRC, the accumulated size, and the zlib
compressor. -/
structure EncState (E : Deflate) where
  gzipobj : Bool
  crc : Nat
  size : Nat
  compressobj : E.CSt

/-- IncrementalEncoder.reset (lines 86-94): clear the header marker, seed
the CRC with zlib.crc32("") masked to 32 bits, zero the size, and make a
fresh raw compressor. -/
def encReset (E : Deflate) : EncState E :=
  ⟨false, crc32 0 [] % 2 ^ 32, 0, E.cinit⟩

/-- IncrementalEncoder.encode (lines 69-84).  `mtime` is the wall-clock
value the GzipFile constructor stamps into the header on the first call.
On the first call the 10-byte header is emitted; every call feeds the chunk
to the CRC/size accumulator (CRC masked to 32 bits) and to the compressor;
a final call additionally flushes the compressor and appends the 8-byte
trailer packed from the final CRC and the size masked to 32 bits. -/
def encodeStep (E : Deflate) (mtime : Nat) (s : EncState E) (input : List Nat)
    (final : Bool) : EncState E × List Nat :=
  let c := if s.gzipobj then [] else gzipHeader mtime
  let crc := crc32 s.crc input % 2 ^ 32
  let size := s.size + input.length
  let p := E.compress s.compressobj input
  if final then
    (⟨true, crc, size, p.1⟩,
     c ++ p.2 ++ E.flush p.1 ++ pack_I crc ++ pack_I (size % 2 ^ 32))
  else
    (⟨true, crc, size, p.1⟩, c ++ p.2)

/-- Drive an IncrementalEncoder through a list of chunks, every call
non-final, concatenating the outputs. -/
def encodeAllNF (E : Deflate) (mtime : Nat) (s : EncState E) :
    List (List Nat) → EncState E × List Nat
  | [] => (s, [])
  | c :: cs =>
    let p := encodeStep E mtime s c false
    let q := encodeAllNF E mtime p.1 cs
    (q.1, p.2 ++ q.2)

/-! ## One-shot encoder (src/gzip_codec.py lines 18-31) -/

/-- Modelled from the spec: gzip_encode delegates to gzip.GzipFile (gzip
module, not under src/), whose write path produces the byte-exact wire
format of spec section 6: the 10-byte header, the raw DEFLATE stream of the
input (compress then flush from a fresh compressor), the CRC-32 of the
uncompressed data and its length modulo 2^32, both little-endian.  The
temporary GzipFile of line 30 is finalized by CPython reference counting
before getvalue(), so flush and trailer are present in the returned buffer.
Returns (output bytes, length consumed). -/
def gzip_encode (E : Deflate) (mtime : Nat) (input : List Nat) : List Nat × Nat :=
  (gzipHeader mtime ++ (E.compress E.cinit input).2
     ++ E.flush (E.compress E.cinit input).1
     ++ pack_I (crc32 0 input % 2 ^ 32) ++ pack_I (input.length % 2 ^ 32),
   input.length)

/-! ## Decoder-side header parsing -/

/-- The error conditions of the decoding paths: the two IOErrors raised in
src/gzip_codec.py lines 109 and 122 (truncated header, truncated footer),
the format errors and the CRC/length mismatches raised inside the gzip
module helpers the decoder calls. -/
inductive GzipError
  | truncatedHeader
  | badMagic
  | badMethod
  | badExtraField
  | truncatedTrailer
  | checksumMismatch
  | sizeMismatch
deriving DecidableEq

/-- Drop bytes up to and including the first zero byte, tolerating a
missing terminator: the loop gzip uses to skip the optional file-name and
comment header fields. -/
def dropZeroTerm : List Nat → List Nat
  | [] => []
  | 0 :: r => r
  | _ :: r => dropZeroTerm r

/-- Modelled from the spec: the external header parser's skipping of the
optional variable-length fields selected by the flag bits, in wire order:
extra field (2-byte little-endian length prefix, failing if the length
bytes are missing), zero-terminated file name, zero-terminated comment,
2-byte header CRC. -/
def skipOptional (flag : Nat) (r0 : List Nat) : Except GzipError (List Nat) :=
  match (if flag / 4 % 2 = 1 then
           match r0 with
           | x0 :: x1 :: rr => Except.ok (rr.drop (x0 + 256 * x1))
           | _ => Except.error GzipError.badExtraField
         else Except.ok r0) with
  | Except.error e => Except.error e
  | Except.ok r1 =>
    let r2 := if flag / 8 % 2 = 1 then dropZeroTerm r1 else r1
    let r3 := if flag / 16 % 2 = 1 then dropZeroTerm r2 else r2
    Except.ok (if flag / 2 % 2 = 1 then r3.drop 2 else r3)

/-- Modelled from the spec: gzip's _read_gzip_header, the external header
parser the decoder delegates to.  Checks the magic pair and the compression
method, skips flags, modification time, extra flags and OS byte, then skips
the optional fields, returning the remainder of the input (the start of the
compressed payload). -/
def readGzipHeader : List Nat → Except GzipError (List Nat)
  | m0 :: m1 :: method :: flag :: _ :: _ :: _ :: _ :: _ :: _ :: rest =>
    if m0 = 0x1f ∧ m1 = 0x8b then
      if method = 8 then skipOptional flag rest
      else Except.error GzipError.badMethod
    else Except.error GzipError.badMagic
  | _ => Except.error GzipError.badMagic

/-! ## Incremental decoder (src/gzip_codec.py lines 97-136) -/

/-- State of an IncrementalDecoder: None before the first call; afterwards
the raw decompressor together with the CRC and size accumulated by
_add_read_data (held by the GzipFile stored in self.gzipobj). -/
structure DecState (E : Deflate) where
  gzipobj : Option (E.DSt × Nat × Nat)

/-- The body of IncrementalDecoder.decode after header handling (lines
120-133), with the accumulator fields unpacked.  On a final call: require
at least 8 remaining bytes (line 121), decompress the whole remainder and
flush, accumulate CRC and size over the decompressed bytes, then _read_eof:
compare the little-endian CRC and size read from the last 8 bytes of this
chunk against the accumulated values, CRC first.  On a non-final call:
decompress and accumulate. -/
def decodeBody (E : Deflate) (dst : E.DSt) (crc size : Nat) (rest : List Nat)
    (final : Bool) : Except GzipError (DecState E × List Nat) :=
  if final then
    if rest.length < 8 then Except.error GzipError.truncatedTrailer
    else
      let p := E.decompress dst rest
      let uncompress := p.2 ++ E.dflush p.1
      let crc1 := crc32 crc uncompress % 2 ^ 32
      let size1 := size + uncompress.length
      let t := rest.drop (rest.length - 8)
      if read32 (t.take 4) ≠ crc1 then Except.error GzipError.checksumMismatch
      else if read32 (t.drop 4) ≠ size1 % 2 ^ 32 then
        Except.error GzipError.sizeMismatch
      else Except.ok (⟨some (p.1, crc1, size1)⟩, uncompress)
  else
    let p := E.decompress dst rest
    Except.ok (⟨some (p.1, crc32 crc p.2 % 2 ^ 32, size + p.2.length)⟩, p.2)

/-- IncrementalDecoder.decode (lines 106-133).  On the first call: fail
with the truncated-header error when the chunk is shorter than 10 bytes
(lines 108-109), otherwise parse the header, set up a raw decompressor with
a freshly seeded CRC/size accumulator, and continue on the remainder of the
chunk; then run the common body. -/
def decodeStep (E : Deflate) (s : DecState E) (input : List Nat) (final : Bool) :
    Except GzipError (DecState E × List Nat) :=
  match s.gzipobj with
  | none =>
    if input.length < 10 then Except.error GzipError.truncatedHeader
    else
      match readGzipHeader input with
      | Except.error e => Except.error e
      | Except.ok r => decodeBody E E.dinit (crc32 0 [] % 2 ^ 32) 0 r final
  | some (d, c, n) => decodeBody E d c n input final

/-- The byte string a single IncrementalDecoder.decode call passes to the
raw engine's decompress primitive (lines 123 and 131): after the guards and
the first-call header strip, the entire remaining chunk — the trailer bytes
are not separated out. -/
def decompressFed (E : Deflate) (s : DecState E) (input : List Nat)
    (final : Bool) : Except GzipError (List Nat) :=
  match s.gzipobj with
  | none =>
    if input.length < 10 then Except.error GzipError.truncatedHeader
    else
      match readGzipHeader input with
      | Except.error e => Except.error e
      | Except.ok r =>
        if final then
          if r.length < 8 then Except.error GzipError.truncatedTrailer
          else Except.ok r
        else Except.ok r
  | some _ =>
    if final then
      if input.length < 8 then Except.error GzipError.truncatedTrailer
      else Except.ok input
    else Except.ok input

/-! ## One-shot decoder (src/gzip_codec.py lines 34-51) -/

/-- Modelled from the spec: gzip_decode delegates to gzip.GzipFile's read
path (gzip module, not under src/); spec section 4.5 defines the one-shot
decodeAll as a single final decode call on a fresh decoder.  Returns
(output bytes, length consumed). -/
def gzip_decode (E : Deflate) (input : List Nat) :
    Except GzipError (List Nat × Nat) :=
  (decodeStep E ⟨none⟩ input true).map fun r => (r.2, input.length)

/-! ## A concrete lawful engine for witnesses -/

/-- Decompressor state of the stored-format witness engine: expecting a tag
byte, expecting a literal byte, or past the end-of-stream marker. -/
inductive StoredSt
  | tag
  | lit
  | done
deriving DecidableEq

/-- Stored-format witness engine, one byte at a time: tag 1 introduces a
literal byte, tag 0 ends the stream, anything after the end is ignored. -/
def storedByte : StoredSt → Nat → StoredSt × List Nat
  | StoredSt.tag, b => if b = 1 then (StoredSt.lit, []) else (StoredSt.done, [])
  | StoredSt.lit, b => (StoredSt.tag, [b])
  | StoredSt.done, _ => (StoredSt.done, [])

/-- Run the stored-format decompressor over a byte list. -/
def storedRun : StoredSt → List Nat → StoredSt × List Nat
  | s, [] => (s, [])
  | s, b :: r =>
    let p := storedByte s b
    let q := storedRun p.1 r
    (q.1, p.2 ++ q.2)

/-- Stored-format compressed stream: each byte escaped behind tag 1, then
the end-of-stream marker 0. -/
def storedEnc : List Nat → List Nat
  | [] => [0]
  | b :: r => 1 :: b :: storedEnc r

/-- A concrete engine satisfying the raw-deflate contract: compression
buffers its input and emits everything on flush in the escaped stored
format. -/
def stored : Deflate where
  CSt := List Nat
  DSt := StoredSt
  cinit := []
  compress := fun s d => (s ++ d, [])
  flush := fun s => storedEnc s
  dinit := StoredSt.tag
  decompress := storedRun
  dflush := fun _ => []

/-! ## Trailer corruption -/

/-- Flip bit number `j` of byte number `k` of the 8-byte trailer of a byte
string: for k below 4 this flips one bit of the stored CRC-32 field. -/
def flipTrailerBit (s : List Nat) (k j : Nat) : List Nat :=
  s.take (s.length - 8)
    ++ (s.drop (s.length - 8)).set k
        ((s.drop (s.length - 8)).getD k 0 ^^^ 2 ^ j)

/-! ## Basic lemmas: CRC-32 -/

theorem crc32_nil (p : Nat) : crc32 p [] = p := by
  simp [crc32, Nat.xor_assoc]

theorem crc32_append (p : Nat) (a b : List Nat) :
    crc32 p (a ++ b) = crc32 (crc32 p a) b := by
  simp [crc32, List.foldl_append, Nat.xor_assoc]

theorem crc32_empty : crc32 0 [] = 0 := by decide

theorem crc32_known : crc32 0 [0x61, 0x62, 0x63] = 0x352441c2 := by decide

theorem crcRound_lt (c : Nat) (h : c < 2 ^ 32) : crcRound c < 2 ^ 32 := by
  unfold crcRound
  split
  · exact Nat.xor_lt_two_pow (by omega) (by norm_num)
  · omega

theorem crcIter_lt (n c : Nat) (h : c < 2 ^ 32) : crcRound^[n] c < 2 ^ 32 := by
  induction n generalizing c with
  | zero => simpa using h
  | succ n ih =>
    rw [Function.iterate_succ_apply]
    exact ih _ (crcRound_lt c h)

theorem crcByte_lt (c b : Nat) (hc : c < 2 ^ 32) (hb : b < 2 ^ 32) :
    crcByte c b < 2 ^ 32 :=
  crcIter_lt 8 _ (Nat.xor_lt_two_pow hc hb)

theorem crc32_foldl_lt (data : List Nat) (acc : Nat) (ha : acc < 2 ^ 32)
    (hd : ∀ b ∈ data, b < 2 ^ 32) : data.foldl crcByte acc < 2 ^ 32 := by
  induction data generalizing acc with
  | nil => simpa using ha
  | cons b r ih =>
    simp only [List.foldl_cons]
    exact ih _ (crcByte_lt acc b ha (hd b (List.mem_cons_self b r)))
      (fun x hx => hd x (List.mem_cons_of_mem b hx))

theorem crc32_lt (p : Nat) (data : List Nat) (hp : p < 2 ^ 32)
    (hd : ∀ b ∈ data, b < 2 ^ 32) : crc32 p data < 2 ^ 32 := by
  unfold crc32
  exact Nat.xor_lt_two_pow
    (crc32_foldl_lt data _ (Nat.xor_lt_two_pow hp (by norm_num)) hd) (by norm_num)

/-! ## Basic lemmas: 32-bit fields -/

theorem pack_I_length (v : Nat) : (pack_I v).length = 4 := rfl

theorem read32_pack_I (v : Nat) : read32 (pack_I v) = v % 2 ^ 32 := by
  simp only [read32, pack_I, List.getD_cons_zero, List.getD_cons_succ]
  omega

theorem pack_I_mem_lt (v : Nat) : ∀ b ∈ pack_I v, b < 256 := by
  simp only [pack_I, List.mem_cons, List.not_mem_nil, or_false]
  rintro b (rfl | rfl | rfl | rfl) <;> omega

/-! ## Basic lemmas: header -/

theorem gzipHeader_length (mtime : Nat) : (gzipHeader mtime).length = 10 := rfl

theorem readGzipHeader_gzipHeader (mtime : Nat) (r : List Nat) :
    readGzipHeader (gzipHeader mtime ++ r) = Except.ok r := rfl

/-! ## The stored engine is lawful -/

theorem storedRun_done (l : List Nat) :
    storedRun StoredSt.done l = (StoredSt.done, []) := by
  induction l with
  | nil => rfl
  | cons b r ih => simp [storedRun, storedByte, ih]

theorem storedRun_enc (d extra : List Nat) :
    storedRun StoredSt.tag (storedEnc d ++ extra) = (StoredSt.done, d) := by
  induction d with
  | nil => simp [storedEnc, storedRun, storedByte, storedRun_done]
  | cons b r ih => simp [storedEnc, storedRun, storedByte, ih]

theorem storedLawful : LawfulDeflate stored where
  compress_nil := by intro s; simp [stored]
  compress_append := by intro s a b; simp [stored]
  decompress_spec := by
    intro d extra
    simp [stored, storedRun_enc]
  dflush_spec := by intro d extra; rfl

/-! ## One-shot helpers -/

theorem trailer_take4 (a b : Nat) : (pack_I a ++ pack_I b).take 4 = pack_I a := rfl

theorem trailer_drop4 (a b : Nat) : (pack_I a ++ pack_I b).drop 4 = pack_I b := rfl

theorem mod32_mod32 (x : Nat) : x % 2 ^ 32 % 2 ^ 32 = x % 2 ^ 32 :=
  Nat.mod_mod_of_dvd x dvd_rfl

theorem crc32_seed : crc32 0 [] % 2 ^ 32 = 0 := by
  rw [crc32_nil, Nat.zero_mod]

theorem encode_oneshot (E : Deflate) (mtime : Nat) (data : List Nat) :
    (gzip_encode E mtime data).1 = (encodeStep E mtime (encReset E) data true).2 := by
  simp [gzip_encode, encodeStep, encReset, crc32_nil]

/-- decodeBody on a final chunk that splits as payload plus an 8-byte tail,
when the engine turns the whole chunk into `U` and has nothing left to
flush. -/
theorem decodeBody_gen (E : Deflate) (dst : E.DSt) (crc size : Nat)
    (P T U : List Nat) (hT : T.length = 8)
    (hout : (E.decompress dst (P ++ T)).2 = U)
    (hfl : E.dflush (E.decompress dst (P ++ T)).1 = []) :
    decodeBody E dst crc size (P ++ T) true
    = (if read32 (T.take 4) ≠ crc32 crc U % 2 ^ 32 then
         Except.error GzipError.checksumMismatch
       else if read32 (T.drop 4) ≠ (size + U.length) % 2 ^ 32 then
         Except.error GzipError.sizeMismatch
       else Except.ok
         (⟨some ((E.decompress dst (P ++ T)).1, crc32 crc U % 2 ^ 32,
            size + U.length)⟩, U)) := by
  have hlen : (P ++ T).length = P.length + 8 := by simp [hT]
  have hdrop : (P ++ T).drop ((P ++ T).length - 8) = T := by
    rw [hlen, Nat.add_sub_cancel]
    exact List.drop_left P T
  have hnlt : ¬ ((P ++ T).length < 8) := by omega
  simp only [decodeBody, if_true, if_neg hnlt, hdrop, hout, hfl,
    List.append_nil]

/-- Decoding the one-shot encoder's stream in a single final call succeeds
and returns the original data. -/
theorem decode_gzip_encode (E : Deflate) (h : LawfulDeflate E) (mtime : Nat)
    (D : List Nat) :
    decodeStep E ⟨none⟩ (gzip_encode E mtime D).1 true
    = Except.ok
        (⟨some ((E.decompress E.dinit ((E.compress E.cinit D).2
            ++ E.flush (E.compress E.cinit D).1
            ++ (pack_I (crc32 0 D % 2 ^ 32) ++ pack_I (D.length % 2 ^ 32)))).1,
          crc32 0 D % 2 ^ 32, D.length)⟩, D) := by
  have hbody := decodeBody_gen E E.dinit 0 0
    ((E.compress E.cinit D).2 ++ E.flush (E.compress E.cinit D).1)
    (pack_I (crc32 0 D % 2 ^ 32) ++ pack_I (D.length % 2 ^ 32)) D
    (by simp [pack_I])
    (h.decompress_spec D _)
    (h.dflush_spec D _)
  rw [trailer_take4, trailer_drop4, read32_pack_I, read32_pack_I,
    mod32_mod32, mod32_mod32] at hbody
  simp only [Nat.zero_add,
    if_neg (by simp : ¬ (crc32 0 D % 2 ^ 32 ≠ crc32 0 D % 2 ^ 32)),
    if_neg (by simp : ¬ (D.length % 2 ^ 32 ≠ D.length % 2 ^ 32))] at hbody
  have hstream : (gzip_encode E mtime D).1
      = gzipHeader mtime ++ ((E.compress E.cinit D).2
          ++ E.flush (E.compress E.cinit D).1
          ++ (pack_I (crc32 0 D % 2 ^ 32) ++ pack_I (D.length % 2 ^ 32))) := by
    simp only [gzip_encode, List.append_assoc]
  have hlen : ¬ ((gzipHeader mtime ++ ((E.compress E.cinit D).2
      ++ E.flush (E.compress E.cinit D).1
      ++ (pack_I (crc32 0 D % 2 ^ 32) ++ pack_I (D.length % 2 ^ 32)))).length < 10) := by
    simp [gzipHeader_length]
  rw [hstream]
  simp only [decodeStep, if_neg hlen, readGzipHeader_gzipHeader, crc32_seed]
  exact hbody

/-- gzip_decode of gzip_encode returns the original bytes together with the
consumed length. -/
theorem gzip_decode_encode (E : Deflate) (h : LawfulDeflate E) (mtime : Nat)
    (D : List Nat) :
    gzip_decode E (gzip_encode E mtime D).1
    = Except.ok (D, (gzip_encode E mtime D).1.length) := by
  unfold gzip_decode
  rw [decode_gzip_encode E h mtime D]
  rfl

/-! ## Chunked encoding -/

/-- Feeding chunks non-finally to an encoder that has already emitted its
header accumulates CRC, size and compressor state exactly as feeding their
concatenation would. -/
theorem encodeAllNF_marked (E : Deflate) (h : LawfulDeflate E) (mtime : Nat)
    (cs : List (List Nat)) :
    ∀ s : EncState E, s.gzipobj = true → s.crc < 2 ^ 32 →
      (∀ b ∈ cs.flatten, b < 2 ^ 32) →
      encodeAllNF E mtime s cs =
        (⟨true, crc32 s.crc cs.flatten % 2 ^ 32, s.size + cs.flatten.length,
           (E.compress s.compressobj cs.flatten).1⟩,
         (E.compress s.compressobj cs.flatten).2) := by
  induction cs with
  | nil =>
    intro s hgz hcrc _
    obtain ⟨g, cr, sz, co⟩ := s
    simp only at hgz hcrc
    subst hgz
    simp [encodeAllNF, crc32_nil, h.compress_nil]
    omega
  | cons c cs ih =>
    intro s hgz hcrc hb
    have hbc : ∀ b ∈ c, b < 2 ^ 32 := fun b hb' => hb b (by
      simp only [List.flatten_cons, List.mem_append]; exact Or.inl hb')
    have hbj : ∀ b ∈ cs.flatten, b < 2 ^ 32 := fun b hb' => hb b (by
      simp only [List.flatten_cons, List.mem_append]; exact Or.inr hb')
    have hcm : crc32 s.crc c % 2 ^ 32 = crc32 s.crc c :=
      Nat.mod_eq_of_lt (crc32_lt s.crc c hcrc hbc)
    have hstep : encodeStep E mtime s c false
        = (⟨true, crc32 s.crc c % 2 ^ 32, s.size + c.length,
            (E.compress s.compressobj c).1⟩, (E.compress s.compressobj c).2) := by
      simp [encodeStep, hgz]
    have hrec := ih ⟨true, crc32 s.crc c % 2 ^ 32, s.size + c.length,
        (E.compress s.compressobj c).1⟩ rfl (Nat.mod_lt _ (by norm_num)) hbj
    simp only [encodeAllNF, hstep, hrec, List.flatten_cons]
    rw [h.compress_append s.compressobj c cs.flatten]
    simp only [hcm, ← crc32_append, List.length_append, Nat.add_assoc]

/-- A run of non-final calls on a freshly reset encoder, headed by at least
one chunk, emits the header followed by the compression of the joined
chunks, and accumulates their CRC and length. -/
theorem encodeAllNF_reset (E : Deflate) (h : LawfulDeflate E) (mtime : Nat)
    (c0 : List Nat) (cs : List (List Nat))
    (hb : ∀ b ∈ (c0 :: cs).flatten, b < 2 ^ 32) :
    encodeAllNF E mtime (encReset E) (c0 :: cs)
    = (⟨true, crc32 0 ((c0 :: cs).flatten) % 2 ^ 32, ((c0 :: cs).flatten).length,
         (E.compress E.cinit ((c0 :: cs).flatten)).1⟩,
       gzipHeader mtime ++ (E.compress E.cinit ((c0 :: cs).flatten)).2) := by
  have hbc : ∀ b ∈ c0, b < 2 ^ 32 := fun b hb' => hb b (by
    simp only [List.flatten_cons, List.mem_append]; exact Or.inl hb')
  have hbj : ∀ b ∈ cs.flatten, b < 2 ^ 32 := fun b hb' => hb b (by
    simp only [List.flatten_cons, List.mem_append]; exact Or.inr hb')
  have hstep0 : encodeStep E mtime (encReset E) c0 false
      = (⟨true, crc32 0 c0 % 2 ^ 32, c0.length, (E.compress E.cinit c0).1⟩,
         gzipHeader mtime ++ (E.compress E.cinit c0).2) := by
    simp [encodeStep, encReset, crc32_nil]
  have hc0 : crc32 0 c0 % 2 ^ 32 = crc32 0 c0 :=
    Nat.mod_eq_of_lt (crc32_lt 0 c0 (by norm_num) hbc)
  have hrec := encodeAllNF_marked E h mtime cs
    ⟨true, crc32 0 c0 % 2 ^ 32, c0.length, (E.compress E.cinit c0).1⟩ rfl
    (Nat.mod_lt _ (by norm_num)) hbj
  simp only [encodeAllNF, hstep0, hrec, List.flatten_cons]
  rw [h.compress_append E.cinit c0 cs.flatten]
  simp only [hc0, ← crc32_append, List.length_append, List.append_assoc]

/-- The CRC and size accumulated over any run of non-final calls from a
fresh encoder are those of the joined chunks. -/
theorem encodeAllNF_reset_accum (E : Deflate) (h : LawfulDeflate E)
    (mtime : Nat) (cs : List (List Nat)) (hb : ∀ b ∈ cs.flatten, b < 2 ^ 32) :
    (encodeAllNF E mtime (encReset E) cs).1.crc = crc32 0 cs.flatten % 2 ^ 32
    ∧ (encodeAllNF E mtime (encReset E) cs).1.size = cs.flatten.length := by
  cases cs with
  | nil => exact ⟨rfl, rfl⟩
  | cons c0 cs => rw [encodeAllNF_reset E h mtime c0 cs hb]; exact ⟨rfl, rfl⟩

/-- Incremental encoding of any nonempty chunking, final call last, is
byte-identical to the one-shot wrapper on the concatenation. -/
theorem encode_chunked (E : Deflate) (h : LawfulDeflate E) (mtime : Nat)
    (cs : List (List Nat)) (c : List Nat)
    (hb : ∀ b ∈ cs.flatten ++ c, b < 2 ^ 32) :
    (encodeAllNF E mtime (encReset E) cs).2
      ++ (encodeStep E mtime (encodeAllNF E mtime (encReset E) cs).1 c true).2
      = (gzip_encode E mtime (cs.flatten ++ c)).1 := by
  cases cs with
  | nil =>
    simp only [encodeAllNF, List.flatten_nil, List.nil_append]
    rw [← encode_oneshot]
  | cons c0 cs =>
    have hbj : ∀ b ∈ (c0 :: cs).flatten, b < 2 ^ 32 := fun b hb' => hb b (by
      simp only [List.mem_append]; exact Or.inl hb')
    have hbc : ∀ b ∈ c, b < 2 ^ 32 := fun b hb' => hb b (by
      simp only [List.mem_append]; exact Or.inr hb')
    have hJ : crc32 0 ((c0 :: cs).flatten) % 2 ^ 32 = crc32 0 ((c0 :: cs).flatten) :=
      Nat.mod_eq_of_lt (crc32_lt 0 _ (by norm_num) hbj)
    rw [encodeAllNF_reset E h mtime c0 cs hbj]
    have hstep : encodeStep E mtime
          ⟨true, crc32 0 ((c0 :: cs).flatten) % 2 ^ 32, ((c0 :: cs).flatten).length,
            (E.compress E.cinit ((c0 :: cs).flatten)).1⟩ c true
        = (⟨true, crc32 (crc32 0 ((c0 :: cs).flatten) % 2 ^ 32) c % 2 ^ 32,
             ((c0 :: cs).flatten).length + c.length,
             (E.compress (E.compress E.cinit ((c0 :: cs).flatten)).1 c).1⟩,
           (E.compress (E.compress E.cinit ((c0 :: cs).flatten)).1 c).2
             ++ E.flush (E.compress (E.compress E.cinit ((c0 :: cs).flatten)).1 c).1
             ++ pack_I (crc32 (crc32 0 ((c0 :: cs).flatten) % 2 ^ 32) c % 2 ^ 32)
             ++ pack_I ((((c0 :: cs).flatten).length + c.length) % 2 ^ 32)) := by
      simp [encodeStep]
    rw [hstep]
    simp only [gzip_encode]
    rw [h.compress_append E.cinit ((c0 :: cs).flatten) c]
    simp only [hJ, ← crc32_append, List.length_append, List.append_assoc]

/-! ## Decoder error characterizations -/

theorem skipOptional_cases (flag : Nat) (r : List Nat) :
    (∃ r1, skipOptional flag r = Except.ok r1)
    ∨ skipOptional flag r = Except.error GzipError.badExtraField := by
  unfold skipOptional
  split
  · rename_i e heq
    right
    split at heq
    · rcases r with _ | ⟨x, _ | ⟨y, rr⟩⟩ <;> simp_all
    · simp_all
  · exact Or.inl ⟨_, rfl⟩

theorem readGzipHeader_cases (input : List Nat) :
    (∃ r, readGzipHeader input = Except.ok r)
    ∨ readGzipHeader input = Except.error GzipError.badMagic
    ∨ readGzipHeader input = Except.error GzipError.badMethod
    ∨ readGzipHeader input = Except.error GzipError.badExtraField := by
  unfold readGzipHeader
  split
  · rename_i m0 m1 method flag a b c2 d e f rest
    split
    · split
      · rcases skipOptional_cases flag rest with ⟨r1, h1⟩ | h1
        · exact Or.inl ⟨r1, h1⟩
        · exact Or.inr (Or.inr (Or.inr h1))
      · exact Or.inr (Or.inr (Or.inl rfl))
    · exact Or.inr (Or.inl rfl)
  · exact Or.inr (Or.inl rfl)

theorem decodeBody_ne_truncatedHeader (E : Deflate) (dst : E.DSt)
    (crc size : Nat) (rest : List Nat) (final : Bool) :
    decodeBody E dst crc size rest final
      ≠ Except.error GzipError.truncatedHeader := by
  unfold decodeBody
  split
  · split
    · simp
    · dsimp only
      split
      · simp
      · split
        · simp
        · simp
  · simp

/-- On a fresh decoder, the truncated-header error is raised exactly when
the first chunk is shorter than 10 bytes. -/
theorem decodeStep_truncHeader_iff (E : Deflate) (input : List Nat)
    (final : Bool) :
    decodeStep E ⟨none⟩ input final = Except.error GzipError.truncatedHeader
      ↔ input.length < 10 := by
  constructor
  · intro hcontra
    by_contra hlen
    rw [show decodeStep E ⟨none⟩ input final
        = (match readGzipHeader input with
           | Except.error e => Except.error e
           | Except.ok r =>
             decodeBody E E.dinit (crc32 0 [] % 2 ^ 32) 0 r final) from by
      simp [decodeStep, if_neg hlen]] at hcontra
    rcases readGzipHeader_cases input with ⟨r, hr⟩ | hr | hr | hr <;>
      rw [hr] at hcontra <;> simp at hcontra
    exact decodeBody_ne_truncatedHeader E E.dinit _ 0 r final hcontra
  · intro hlen
    simp [decodeStep, if_pos hlen]

theorem decodeBody_short (E : Deflate) (dst : E.DSt) (crc size : Nat)
    (c : List Nat) (hlen : c.length < 8) :
    decodeBody E dst crc size c true = Except.error GzipError.truncatedTrailer := by
  simp [decodeBody, if_pos hlen]

/-- A first call that is also final fails with the truncated-trailer error
whenever fewer than 8 bytes remain after the parsed header. -/
theorem decodeStep_first_final_short (E : Deflate) (input r : List Nat)
    (hlen : 10 ≤ input.length) (hr : readGzipHeader input = Except.ok r)
    (hshort : r.length < 8) :
    decodeStep E ⟨none⟩ input true = Except.error GzipError.truncatedTrailer := by
  simp only [decodeStep, if_neg (by omega : ¬ input.length < 10), hr]
  exact decodeBody_short E E.dinit (crc32 0 [] % 2 ^ 32) 0 r hshort

/-- A successful final decodeBody consumed at least 8 bytes and its stored
trailer, read from the last 8 bytes of the chunk, matches the accumulated
CRC and size. -/
theorem decodeBody_ok_trailer (E : Deflate) (dst : E.DSt) (crc size : Nat)
    (c : List Nat) (st : DecState E) (out : List Nat)
    (hok : decodeBody E dst crc size c true = Except.ok (st, out)) :
    8 ≤ c.length
    ∧ read32 ((c.drop (c.length - 8)).take 4) = crc32 crc out % 2 ^ 32
    ∧ read32 ((c.drop (c.length - 8)).drop 4) = (size + out.length) % 2 ^ 32 := by
  by_cases hlen : c.length < 8
  · rw [decodeBody_short E dst crc size c hlen] at hok
    exact absurd hok (by simp)
  · unfold decodeBody at hok
    simp only [if_true, if_neg hlen] at hok
    by_cases h1 : read32 ((c.drop (c.length - 8)).take 4)
        ≠ crc32 crc ((E.decompress dst c).2 ++ E.dflush (E.decompress dst c).1)
            % 2 ^ 32
    · rw [if_pos h1] at hok
      exact absurd hok (by simp)
    · rw [if_neg h1] at hok
      by_cases h2 : read32 ((c.drop (c.length - 8)).drop 4)
          ≠ (size + ((E.decompress dst c).2
              ++ E.dflush (E.decompress dst c).1).length) % 2 ^ 32
      · rw [if_pos h2] at hok
        exact absurd hok (by simp)
      · rw [if_neg h2] at hok
        injection hok with hp
        have hout : (E.decompress dst c).2 ++ E.dflush (E.decompress dst c).1
            = out := congrArg Prod.snd hp
        push_neg at h1 h2
        refine ⟨by omega, ?_, ?_⟩
        · rw [← hout]; exact h1
        · rw [← hout]; exact h2

/-! ## What reaches the decompressor -/

/-- The final one-shot decode call feeds the decompressor the entire
post-header remainder of the stream, the 8 trailer bytes included. -/
theorem decompressFed_encoded (E : Deflate) (mtime : Nat)
    (D : List Nat) :
    decompressFed E ⟨none⟩ (gzip_encode E mtime D).1 true
    = Except.ok ((gzip_encode E mtime D).1.drop 10) := by
  have hstream : (gzip_encode E mtime D).1
      = gzipHeader mtime ++ ((E.compress E.cinit D).2
          ++ E.flush (E.compress E.cinit D).1
          ++ (pack_I (crc32 0 D % 2 ^ 32) ++ pack_I (D.length % 2 ^ 32))) := by
    simp only [gzip_encode, List.append_assoc]
  rw [hstream]
  have hlen : ¬ ((gzipHeader mtime ++ ((E.compress E.cinit D).2
      ++ E.flush (E.compress E.cinit D).1
      ++ (pack_I (crc32 0 D % 2 ^ 32) ++ pack_I (D.length % 2 ^ 32)))).length < 10) := by
    simp [gzipHeader_length]
  have hshort : ¬ (((E.compress E.cinit D).2
      ++ E.flush (E.compress E.cinit D).1
      ++ (pack_I (crc32 0 D % 2 ^ 32) ++ pack_I (D.length % 2 ^ 32))).length < 8) := by
    simp [pack_I]
    omega
  have hdrop : (gzipHeader mtime ++ ((E.compress E.cinit D).2
      ++ E.flush (E.compress E.cinit D).1
      ++ (pack_I (crc32 0 D % 2 ^ 32) ++ pack_I (D.length % 2 ^ 32)))).drop 10
      = ((E.compress E.cinit D).2 ++ E.flush (E.compress E.cinit D).1
          ++ (pack_I (crc32 0 D % 2 ^ 32) ++ pack_I (D.length % 2 ^ 32))) := by
    rw [show (10 : Nat) = (gzipHeader mtime).length from rfl]
    exact List.drop_left _ _
  simp only [decompressFed, if_neg hlen, readGzipHeader_gzipHeader,
    if_neg hshort, hdrop]
  simp

/-! ## Corrupting the stored CRC field is detected -/

theorem set_trailer_crc (c n x k : Nat) (hk : k < 4) :
    (pack_I c ++ pack_I n).set k x = (pack_I c).set k x ++ pack_I n := by
  interval_cases k <;> rfl

theorem getD_trailer_crc (c n k : Nat) (hk : k < 4) :
    (pack_I c ++ pack_I n).getD k 0 = (pack_I c).getD k 0 := by
  interval_cases k <;> rfl

/-- Flipping any single bit of the packed CRC field changes the value that
read32 recovers. -/
theorem read32_set_ne (c k j : Nat) (hc : c < 2 ^ 32) (hk : k < 4) (hj : j < 8) :
    read32 ((pack_I c).set k ((pack_I c).getD k 0 ^^^ 2 ^ j)) ≠ c := by
  have hjlt : (2 : Nat) ^ j < 256 := by
    calc (2 : Nat) ^ j < 2 ^ 8 := Nat.pow_lt_pow_right (by norm_num) hj
    _ = 256 := by norm_num
  have hxne : ∀ b : Nat, b ^^^ 2 ^ j ≠ b := by
    intro b hb
    have h2 := congrArg (fun z => b ^^^ z) hb
    simp only [← Nat.xor_assoc, Nat.xor_self, Nat.zero_xor] at h2
    exact absurd h2 (Nat.pos_iff_ne_zero.mp (pow_pos (by norm_num) j))
  interval_cases k
  · intro hr
    have h' : (c % 256 ^^^ 2 ^ j) + 256 * (c / 256 % 256)
        + 65536 * (c / 65536 % 256) + 16777216 * (c / 16777216 % 256) = c := hr
    have hx := hxne (c % 256)
    have hxl : c % 256 ^^^ 2 ^ j < 2 ^ 8 := Nat.xor_lt_two_pow (by omega) (by omega)
    omega
  · intro hr
    have h' : c % 256 + 256 * (c / 256 % 256 ^^^ 2 ^ j)
        + 65536 * (c / 65536 % 256) + 16777216 * (c / 16777216 % 256) = c := hr
    have hx := hxne (c / 256 % 256)
    have hxl : c / 256 % 256 ^^^ 2 ^ j < 2 ^ 8 :=
      Nat.xor_lt_two_pow (by omega) (by omega)
    omega
  · intro hr
    have h' : c % 256 + 256 * (c / 256 % 256)
        + 65536 * (c / 65536 % 256 ^^^ 2 ^ j)
        + 16777216 * (c / 16777216 % 256) = c := hr
    have hx := hxne (c / 65536 % 256)
    have hxl : c / 65536 % 256 ^^^ 2 ^ j < 2 ^ 8 :=
      Nat.xor_lt_two_pow (by omega) (by omega)
    omega
  · intro hr
    have h' : c % 256 + 256 * (c / 256 % 256) + 65536 * (c / 65536 % 256)
        + 16777216 * (c / 16777216 % 256 ^^^ 2 ^ j) = c := hr
    have hx := hxne (c / 16777216 % 256)
    have hxl : c / 16777216 % 256 ^^^ 2 ^ j < 2 ^ 8 :=
      Nat.xor_lt_two_pow (by omega) (by omega)
    omega

/-- A fresh final decode call on a stream with the standard header reduces
to the body on the remainder, with freshly seeded accumulators. -/
theorem decodeStep_fresh_tail (E : Deflate) (mtime : Nat) (R : List Nat) :
    decodeStep E ⟨none⟩ (gzipHeader mtime ++ R) true
    = decodeBody E E.dinit 0 0 R true := by
  have hlen : ¬ ((gzipHeader mtime ++ R).length < 10) := by
    simp [gzipHeader_length]
  simp only [decodeStep, if_neg hlen, readGzipHeader_gzipHeader, crc32_seed]

theorem decodeBody_flipped (E : Deflate) (h : LawfulDeflate E) (D : List Nat)
    (k j : Nat) (hk : k < 4) (hj : j < 8) :
    decodeBody E E.dinit 0 0
      ((E.compress E.cinit D).2 ++ E.flush (E.compress E.cinit D).1
        ++ ((pack_I (crc32 0 D % 2 ^ 32)).set k
              ((pack_I (crc32 0 D % 2 ^ 32)).getD k 0 ^^^ 2 ^ j)
            ++ pack_I (D.length % 2 ^ 32))) true
    = Except.error GzipError.checksumMismatch := by
  have hc32 : crc32 0 D % 2 ^ 32 < 2 ^ 32 := Nat.mod_lt _ (by norm_num)
  have hne := read32_set_ne (crc32 0 D % 2 ^ 32) k j hc32 hk hj
  have hT : ((pack_I (crc32 0 D % 2 ^ 32)).set k
        ((pack_I (crc32 0 D % 2 ^ 32)).getD k 0 ^^^ 2 ^ j)
      ++ pack_I (D.length % 2 ^ 32)).length = 8 := by
    simp [List.length_set, pack_I]
  have hbody := decodeBody_gen E E.dinit 0 0
    ((E.compress E.cinit D).2 ++ E.flush (E.compress E.cinit D).1)
    ((pack_I (crc32 0 D % 2 ^ 32)).set k
        ((pack_I (crc32 0 D % 2 ^ 32)).getD k 0 ^^^ 2 ^ j)
      ++ pack_I (D.length % 2 ^ 32)) D hT
    (h.decompress_spec D _) (h.dflush_spec D _)
  have htake : ((pack_I (crc32 0 D % 2 ^ 32)).set k
        ((pack_I (crc32 0 D % 2 ^ 32)).getD k 0 ^^^ 2 ^ j)
      ++ pack_I (D.length % 2 ^ 32)).take 4
      = (pack_I (crc32 0 D % 2 ^ 32)).set k
          ((pack_I (crc32 0 D % 2 ^ 32)).getD k 0 ^^^ 2 ^ j) := by
    rw [show (4 : Nat) = ((pack_I (crc32 0 D % 2 ^ 32)).set k
        ((pack_I (crc32 0 D % 2 ^ 32)).getD k 0 ^^^ 2 ^ j)).length from by
      simp [List.length_set, pack_I]]
    exact List.take_left _ _
  rw [hbody, htake, if_pos hne]

/-- gzip_decode fails with the checksum-mismatch error on any valid encoder
output whose trailer CRC field has one bit flipped. -/
theorem gzip_decode_flipped (E : Deflate) (h : LawfulDeflate E) (mtime : Nat)
    (D : List Nat) (k j : Nat) (hk : k < 4) (hj : j < 8) :
    gzip_decode E (flipTrailerBit (gzip_encode E mtime D).1 k j)
    = Except.error GzipError.checksumMismatch := by
  have hTlen : (pack_I (crc32 0 D % 2 ^ 32)
      ++ pack_I (D.length % 2 ^ 32)).length = 8 := by
    simp [pack_I]
  have hstream : (gzip_encode E mtime D).1
      = (gzipHeader mtime ++ ((E.compress E.cinit D).2
          ++ E.flush (E.compress E.cinit D).1))
        ++ (pack_I (crc32 0 D % 2 ^ 32) ++ pack_I (D.length % 2 ^ 32)) := by
    simp only [gzip_encode, List.append_assoc]
  have hflip : flipTrailerBit (gzip_encode E mtime D).1 k j
      = gzipHeader mtime ++ ((E.compress E.cinit D).2
          ++ E.flush (E.compress E.cinit D).1
          ++ ((pack_I (crc32 0 D % 2 ^ 32)).set k
                ((pack_I (crc32 0 D % 2 ^ 32)).getD k 0 ^^^ 2 ^ j)
              ++ pack_I (D.length % 2 ^ 32))) := by
    rw [hstream]
    unfold flipTrailerBit
    rw [List.length_append, hTlen, Nat.add_sub_cancel, List.take_left,
      List.drop_left, set_trailer_crc _ _ _ k hk, getD_trailer_crc _ _ k hk,
      List.append_assoc]
  rw [hflip]
  unfold gzip_decode
  rw [decodeStep_fresh_tail, decodeBody_flipped E h D k j hk hj]
  rfl

/-! ## The claims -/

/-- C1: for every byte sequence D and lawful raw-deflate engine, one-shot
decoding of the one-shot encoding of D returns D (with the whole input
counted as consumed): decodeAll (encodeAll D) = D. -/
theorem claim1_round_trip (E : Deflate) (h : LawfulDeflate E) (mtime : Nat)
    (D : List Nat) :
    gzip_decode E (gzip_encode E mtime D).1
    = Except.ok (D, (gzip_encode E mtime D).1.length) :=
  gzip_decode_encode E h mtime D

theorem claim1_witness :
    gzip_decode stored (gzip_encode stored 0 [1, 2, 3]).1
    = Except.ok ([1, 2, 3], (gzip_encode stored 0 [1, 2, 3]).1.length) :=
  claim1_round_trip stored storedLawful 0 [1, 2, 3]

/-- C2: the output bytes of the one-shot wrapper gzip_encode equal those of
a single encode(data, final=True) call on a freshly constructed
IncrementalEncoder whose header carries the same clock value. -/
theorem claim2_oneshot_equals_incremental (E : Deflate) (mtime : Nat)
    (data : List Nat) :
    (gzip_encode E mtime data).1
    = (encodeStep E mtime (encReset E) data true).2 :=
  encode_oneshot E mtime data

/-- C3: feeding any chunks in order to a fresh IncrementalEncoder, all
calls non-final except the last, and concatenating the outputs, is
byte-identical to encodeAll of the concatenated data. -/
theorem claim3_chunking_invariance (E : Deflate) (h : LawfulDeflate E)
    (mtime : Nat) (cs : List (List Nat)) (c : List Nat)
    (hb : ∀ b ∈ cs.flatten ++ c, b < 256) :
    (encodeAllNF E mtime (encReset E) cs).2
      ++ (encodeStep E mtime (encodeAllNF E mtime (encReset E) cs).1 c true).2
      = (gzip_encode E mtime (cs.flatten ++ c)).1 :=
  encode_chunked E h mtime cs c
    (fun b hbm => lt_trans (hb b hbm) (by norm_num))

theorem claim3_witness :
    (encodeAllNF stored 0 (encReset stored) [[1], [2, 3]]).2
      ++ (encodeStep stored 0
            (encodeAllNF stored 0 (encReset stored) [[1], [2, 3]]).1 [4] true).2
      = (gzip_encode stored 0 ([[1], [2, 3]].flatten ++ [4])).1 :=
  claim3_chunking_invariance stored storedLawful 0 [[1], [2, 3]] [4] (by decide)

/-- C4: on the first call of a stream the encoder's output is exactly the
fixed 10-byte header — magic 1f 8b, method 8, zero flags — followed
immediately by what the same call would emit with the header already out
(hence no optional fields); every call leaves the header marker set, and a
call with the marker set emits exactly the first-call output with the
10 header bytes removed. -/
theorem claim4_header_exactly_once (E : Deflate) (mtime : Nat)
    (s : EncState E) (input : List Nat) (final : Bool)
    (hfresh : s.gzipobj = false) :
    (encodeStep E mtime s input final).2
      = gzipHeader mtime
        ++ (encodeStep E mtime ⟨true, s.crc, s.size, s.compressobj⟩ input final).2
    ∧ gzipHeader mtime = [0x1f, 0x8b, 8, 0] ++ pack_I mtime ++ [2, 0xff]
    ∧ (gzipHeader mtime).length = 10
    ∧ (encodeStep E mtime s input final).1.gzipobj = true
    ∧ ∀ s' : EncState E, s'.gzipobj = true →
        (encodeStep E mtime s' input final).2
          = ((encodeStep E mtime ⟨false, s'.crc, s'.size, s'.compressobj⟩
                input final).2).drop 10 := by
  have hdrop : ∀ X : List Nat, (gzipHeader mtime ++ X).drop 10 = X := fun X => by
    rw [show (10 : Nat) = (gzipHeader mtime).length from rfl]
    exact List.drop_left _ _
  refine ⟨?_, rfl, rfl, ?_, ?_⟩
  · cases final <;> simp [encodeStep, hfresh, List.append_assoc]
  · cases final <;> simp [encodeStep]
  · intro s' hs'
    cases final <;> simp [encodeStep, hs', List.append_assoc, hdrop]

theorem claim4_witness :
    (encodeStep stored 7 (encReset stored) [1] false).2
      = gzipHeader 7 ++ (encodeStep stored 7
          ⟨true, (encReset stored).crc, (encReset stored).size,
            (encReset stored).compressobj⟩ [1] false).2 :=
  (claim4_header_exactly_once stored 7 (encReset stored) [1] false rfl).1

/-- C5: the output of the final encode call of any stream ends with the
8-byte trailer: the little-endian CRC-32 of the entire uncompressed data
followed by the little-endian total byte count reduced modulo 2^32. -/
theorem claim5_trailer_fields (E : Deflate) (h : LawfulDeflate E)
    (mtime : Nat) (cs : List (List Nat)) (c : List Nat)
    (hb : ∀ b ∈ cs.flatten ++ c, b < 256) :
    ∃ front,
      (encodeStep E mtime (encodeAllNF E mtime (encReset E) cs).1 c true).2
        = front ++ pack_I (crc32 0 (cs.flatten ++ c))
            ++ pack_I ((cs.flatten ++ c).length % 2 ^ 32) := by
  have hb32 : ∀ b ∈ cs.flatten ++ c, b < 2 ^ 32 :=
    fun b hbm => lt_trans (hb b hbm) (by norm_num)
  have hbj : ∀ b ∈ cs.flatten, b < 2 ^ 32 :=
    fun b hbm => hb32 b (List.mem_append_left _ hbm)
  obtain ⟨hcrc, hsize⟩ := encodeAllNF_reset_accum E h mtime cs hbj
  have hJ : crc32 0 cs.flatten % 2 ^ 32 = crc32 0 cs.flatten :=
    Nat.mod_eq_of_lt (crc32_lt 0 _ (by norm_num) hbj)
  have hD : crc32 0 (cs.flatten ++ c) % 2 ^ 32 = crc32 0 (cs.flatten ++ c) :=
    Nat.mod_eq_of_lt (crc32_lt 0 _ (by norm_num) hb32)
  refine ⟨(if (encodeAllNF E mtime (encReset E) cs).1.gzipobj then []
        else gzipHeader mtime)
      ++ (E.compress (encodeAllNF E mtime (encReset E) cs).1.compressobj c).2
      ++ E.flush
          (E.compress (encodeAllNF E mtime (encReset E) cs).1.compressobj c).1,
    ?_⟩
  simp only [encodeStep, if_true]
  rw [hcrc, hJ, ← crc32_append, hD, hsize, ← List.length_append]

theorem claim5_witness :
    ∃ front,
      (encodeStep stored 0 (encodeAllNF stored 0 (encReset stored) [[5]]).1
          [6] true).2
        = front ++ pack_I (crc32 0 ([[5]].flatten ++ [6]))
            ++ pack_I (([[5]].flatten ++ [6]).length % 2 ^ 32) :=
  claim5_trailer_fields stored storedLawful 0 [[5]] [6] (by decide)

/-- C6: encode of the empty chunk with final=True on a fresh encoder emits
the 10-byte header, the flushed (possibly empty) compressed payload, and a
trailer whose CRC field is the CRC-32 of the empty sequence and whose size
field is 0; the result is a valid empty member, decoding back to the empty
sequence. -/
theorem claim6_empty_member (E : Deflate) (h : LawfulDeflate E) (mtime : Nat) :
    (encodeStep E mtime (encReset E) [] true).2
      = gzipHeader mtime ++ E.flush E.cinit ++ pack_I (crc32 0 []) ++ pack_I 0
    ∧ gzip_decode E (encodeStep E mtime (encReset E) [] true).2
      = Except.ok ([], (encodeStep E mtime (encReset E) [] true).2.length) := by
  have h1 : (encodeStep E mtime (encReset E) [] true).2
      = (gzip_encode E mtime []).1 := (encode_oneshot E mtime []).symm
  constructor
  · rw [h1]
    simp [gzip_encode, h.compress_nil, crc32_nil]
  · rw [h1]
    exact gzip_decode_encode E h mtime []

theorem claim6_witness :
    (encodeStep stored 3 (encReset stored) [] true).2
      = gzipHeader 3 ++ stored.flush stored.cinit ++ pack_I (crc32 0 [])
        ++ pack_I 0
    ∧ gzip_decode stored (encodeStep stored 3 (encReset stored) [] true).2
      = Except.ok ([], (encodeStep stored 3 (encReset stored) [] true).2.length) :=
  claim6_empty_member stored storedLawful 3

/-- C7: the first decode call on a fresh IncrementalDecoder fails with the
truncated-header error exactly when its input chunk is shorter than 10
bytes; in particular a one-shot decode (spec section 4.5) of the first 9
bytes of any stream fails with that error. -/
theorem claim7_truncated_header (E : Deflate) (input : List Nat)
    (final : Bool) :
    (decodeStep E ⟨none⟩ input final = Except.error GzipError.truncatedHeader
      ↔ input.length < 10)
    ∧ ∀ s : List Nat,
        decodeStep E ⟨none⟩ (s.take 9) true
          = Except.error GzipError.truncatedHeader := by
  refine ⟨decodeStep_truncHeader_iff E input final, fun s => ?_⟩
  exact (decodeStep_truncHeader_iff E (s.take 9) true).mpr
    (by rw [List.length_take]; omega)

/-- C8: flipping any single bit of the 4-byte trailer CRC-32 field of a
valid encoded stream makes decodeAll fail with the checksum-mismatch
error. -/
theorem claim8_bit_flip_detected (E : Deflate) (h : LawfulDeflate E)
    (mtime : Nat) (D : List Nat) (k j : Nat) (hk : k < 4) (hj : j < 8) :
    gzip_decode E (flipTrailerBit (gzip_encode E mtime D).1 k j)
    = Except.error GzipError.checksumMismatch :=
  gzip_decode_flipped E h mtime D k j hk hj

theorem claim8_witness :
    gzip_decode stored (flipTrailerBit (gzip_encode stored 0 [9]).1 2 5)
    = Except.error GzipError.checksumMismatch :=
  claim8_bit_flip_detected stored storedLawful 0 [9] 2 5 (by omega) (by omega)

/-- C9 is false of the code: on a single final decode call holding an
entire valid member, the bytes handed to the raw engine's decompress
primitive are the whole post-header remainder — which still carries the 8
trailer bytes — not the compressed payload with the trailer excluded. -/
theorem claim9_cex :
    decompressFed stored ⟨none⟩ (gzip_encode stored 0 [7]).1 true
      = Except.ok ((gzip_encode stored 0 [7]).1.drop 10)
    ∧ (gzip_encode stored 0 [7]).1.drop 10
      ≠ ((gzip_encode stored 0 [7]).1.drop 10).take
          (((gzip_encode stored 0 [7]).1.drop 10).length - 8) :=
  ⟨rfl, by decide⟩

/-- C9 amended: the final decode call feeds the decompress primitive the
entire post-header remainder, the 8 trailer bytes included; the lawful
engine produces no output for bytes past the end of the deflate stream, so
the decoded output is still exactly the original data. -/
theorem claim9_trailer_reaches_decompressor (E : Deflate)
    (h : LawfulDeflate E) (mtime : Nat) (D : List Nat) :
    decompressFed E ⟨none⟩ (gzip_encode E mtime D).1 true
      = Except.ok ((gzip_encode E mtime D).1.drop 10)
    ∧ 8 ≤ ((gzip_encode E mtime D).1.drop 10).length
    ∧ gzip_decode E (gzip_encode E mtime D).1
      = Except.ok (D, (gzip_encode E mtime D).1.length) := by
  refine ⟨decompressFed_encoded E mtime D, ?_, gzip_decode_encode E h mtime D⟩
  have hlen : 18 ≤ (gzip_encode E mtime D).1.length := by
    simp [gzip_encode, gzipHeader, pack_I]
    omega
  rw [List.length_drop]
  omega

theorem claim9_amended_witness :
    decompressFed stored ⟨none⟩ (gzip_encode stored 0 [2]).1 true
      = Except.ok ((gzip_encode stored 0 [2]).1.drop 10)
    ∧ 8 ≤ ((gzip_encode stored 0 [2]).1.drop 10).length
    ∧ gzip_decode stored (gzip_encode stored 0 [2]).1
      = Except.ok ([2], (gzip_encode stored 0 [2]).1.length) :=
  claim9_trailer_reaches_decompressor stored storedLawful 0 [2]

/-- C10: a final decode call validates the trailer against the last 8
bytes of that call's own chunk (after header removal when it is also the
first call), failing with the truncated-trailer error when the chunk holds
fewer than 8 bytes; success forces the last 8 bytes of the chunk to match
the accumulated CRC and size, and a trailer split across the last two
chunks is not reassembled even though the unsplit stream decodes. -/
theorem claim10_trailer_within_final_chunk :
    (∀ (E : Deflate) (d : E.DSt) (crc size : Nat) (c : List Nat),
       c.length < 8 →
       decodeStep E ⟨some (d, crc, size)⟩ c true
         = Except.error GzipError.truncatedTrailer)
    ∧ (∀ (E : Deflate) (input r : List Nat), 10 ≤ input.length →
       readGzipHeader input = Except.ok r → r.length < 8 →
       decodeStep E ⟨none⟩ input true = Except.error GzipError.truncatedTrailer)
    ∧ (∀ (E : Deflate) (d : E.DSt) (crc size : Nat) (c : List Nat)
         (st : DecState E) (out : List Nat),
       decodeStep E ⟨some (d, crc, size)⟩ c true = Except.ok (st, out) →
       8 ≤ c.length
       ∧ read32 ((c.drop (c.length - 8)).take 4) = crc32 crc out % 2 ^ 32
       ∧ read32 ((c.drop (c.length - 8)).drop 4)
           = (size + out.length) % 2 ^ 32)
    ∧ (∃ st, decodeStep stored ⟨none⟩
          ((gzip_encode stored 0 [5]).1.take
            ((gzip_encode stored 0 [5]).1.length - 4)) false
          = Except.ok (st, [5])
        ∧ decodeStep stored st
            ((gzip_encode stored 0 [5]).1.drop
              ((gzip_encode stored 0 [5]).1.length - 4)) true
          = Except.error GzipError.truncatedTrailer
        ∧ gzip_decode stored (gzip_encode stored 0 [5]).1
          = Except.ok ([5], (gzip_encode stored 0 [5]).1.length)) := by
  refine ⟨?_, ?_, ?_, ?_⟩
  · intro E d crc size c hlen
    exact decodeBody_short E d crc size c hlen
  · intro E input r h1 h2 h3
    exact decodeStep_first_final_short E input r h1 h2 h3
  · intro E d crc size c st out hok
    exact decodeBody_ok_trailer E d crc size c st out hok
  · exact ⟨_, rfl, rfl, rfl⟩

theorem claim10_witness :
    decodeStep stored ⟨some (StoredSt.done, 0, 0)⟩ [1, 2, 3] true
      = Except.error GzipError.truncatedTrailer :=
  claim10_trailer_within_final_chunk.1 stored StoredSt.done 0 0 [1, 2, 3]
    (by decide)
